import Mathlib

/-!
Verification development for the real-time collaborative whiteboard server and
client. The definitions below are shallow embeddings of the socket handlers in
server/socket/socketHandlers.js, the board model in the server models, the
client history manager and inbound-event handlers in CanvasPageFixed.jsx, the
pen-drawing logic in CanvasPageFixed.jsx, and the hit-testing utilities of the
client element utilities module.

Conventions used throughout:
* JavaScript numbers are modelled as rationals; timestamps as naturals.
* The JS idiom `element.id || fresh` treats both an undefined and an empty id
  as absent, so a missing id is encoded as the empty string.
* `Math.sqrt`-based distances are embedded squared: for a nonnegative d,
  sqrt d < c holds exactly when d < c * c, so every threshold comparison is
  carried out on squared distances against the squared threshold.
* Each socket handler is a pure function from its inputs (sender, presence
  data, the board fetched from the store, payload, current time) to the
  persisted board (or none when nothing is written) together with the list of
  emitted events, each tagged with its delivery target.
-/

namespace Whiteboard

/-- Role returned by the board access check (`Board.hasAccess`). -/
inductive Role where
  | owner
  | editor
  | viewer
deriving DecidableEq, Repr

/-- A drawing element, with the fields used by the board schema and by the
client utilities: identifier, type tag, bounding box, secondary endpoint for
lines and arrows, point list for freehand strokes, text, and audit fields. -/
structure Element where
  id : String := ""
  type : String := ""
  x : ℚ := 0
  y : ℚ := 0
  width : ℚ := 0
  height : ℚ := 0
  x2 : ℚ := 0
  y2 : ℚ := 0
  points : List (ℚ × ℚ) := []
  text : String := ""
  createdBy : Option String := none
  lastModifiedBy : Option String := none
  createdAt : Option Nat := none
  updatedAt : Option Nat := none
deriving DecidableEq, Repr

/-- The board document: owner, collaborator list with roles, public flag,
element list, and the coarse modification counters bumped by
`updateLastModified`. -/
structure Board where
  owner : String
  collaborators : List (String × Role) := []
  isPublic : Bool := false
  elements : List Element := []
  version : Nat := 0
  lastModified : Option Nat := none
  lastModifiedBy : Option String := none
  totalEdits : Nat := 0
deriving DecidableEq, Repr

/-- Access check from the board model: the owner gets role `owner`, a
collaborator gets the stored role, anyone gets `viewer` on a public board,
and otherwise access is denied (`none`). -/
def Board.hasAccess (b : Board) (uid : String) : Option Role :=
  if b.owner = uid then some Role.owner
  else
    match b.collaborators.find? (fun c => c.1 == uid) with
    | some c => some c.2
    | none => if b.isPublic then some Role.viewer else none

/-- `updateLastModified` from the board model: stamps the modification time
and author and bumps the version and edit counters (then saves). -/
def Board.updateLastModified (b : Board) (uid : String) (now : Nat) : Board :=
  { b with
    lastModified := some now
    lastModifiedBy := some uid
    version := b.version + 1
    totalEdits := b.totalEdits + 1 }

/-- Delivery target of an emitted socket event: only the sender
(`socket.emit`), the room except the sender (`socket.to(boardId).emit`), or
the whole room including the sender (`io.to(boardId).emit`). -/
inductive Target where
  | sender
  | roomExceptSender
  | room
deriving DecidableEq, Repr

/-- Events emitted by the server handlers, with their payloads. -/
inductive SEvent where
  | error (msg : String)
  | elementCreated (el : Element)
  | elementUpdated (el : Element)
  | elementDeleted (id : String)
  | canvasUpdated (elements : List Element) (action : String) (element : Option Element)
  | canvasUpdateConfirmed (action : String) (element : Option Element)
  | boardSaved (savedBy : String) (elementCount : Nat)
  | userJoined (uid : String)
  | boardJoined (boardId : String) (activeUsers : List String)
  | activeUsersUpdated (users : List String)
  | userLeft (uid : String)
deriving DecidableEq, Repr

/-- One emission: an event together with its delivery target. -/
structure Emit where
  target : Target
  event : SEvent
deriving DecidableEq, Repr

/-- Whether a target delivers the event to the sending connection. -/
def deliveredToSender : Target → Bool
  | Target.sender => true
  | Target.roomExceptSender => false
  | Target.room => true

/-- Whether a target delivers the event to room members other than the
sender. -/
def deliveredToPeer : Target → Bool
  | Target.sender => false
  | Target.roomExceptSender => true
  | Target.room => true

/-- Fresh id minted for an element that arrives without one:
`new Date().getTime().toString()`. -/
def freshId (now : Nat) : String := toString now

/-- Creation stamping shared by the `canvas-update` add branch and the
`element-create` handler: assign an id when the incoming one is absent
(JS `element.id || fresh`), and stamp creator and timestamps. -/
def stampCreate (uid : String) (now : Nat) (el : Element) : Element :=
  { el with
    id := if el.id = "" then freshId now else el.id
    createdBy := some uid
    createdAt := some now
    updatedAt := some now }

/-- Stamping applied to each element of a batch replacement or board save:
`updatedAt` is refreshed and `lastModifiedBy` falls back to the acting user
when unset (JS `el.lastModifiedBy || socket.userId`). -/
def stampTouch (uid : String) (now : Nat) (el : Element) : Element :=
  { el with
    updatedAt := some now
    lastModifiedBy := some (el.lastModifiedBy.getD uid) }

/-- Replace the first element satisfying the predicate, mirroring the
`findIndex` followed by an in-place assignment in the handlers. -/
def updateFirst (p : Element → Bool) (f : Element → Element) : List Element → List Element
  | [] => []
  | e :: rest => if p e then f e :: rest else e :: updateFirst p f rest

/-- The `canvas-update` handler: membership check, board lookup, access
check (viewers are rejected for every action except `cursor`), then the
add / update / delete / batch branches, the `canvas-updated` broadcast to
the rest of the room and the confirmation to the sender. The first
component is the board written to the store (`none` when nothing was
persisted). -/
def canvasUpdate (uid : String) (currentBoard : Option String) (boardId : String)
    (board? : Option Board) (action : String) (element : Option Element)
    (elements : Option (List Element)) (now : Nat) : Option Board × List Emit :=
  if currentBoard ≠ some boardId then
    (none, [⟨Target.sender, SEvent.error "Not in this board"⟩])
  else
    match board? with
    | none => (none, [⟨Target.sender, SEvent.error "Board not found"⟩])
    | some board =>
      match board.hasAccess uid with
      | none => (none, [⟨Target.sender, SEvent.error "No edit permission for this board"⟩])
      | some role =>
        if role = Role.viewer ∧ action ≠ "cursor" then
          (none, [⟨Target.sender, SEvent.error "No edit permission for this board"⟩])
        else
          let step : Board × Bool :=
            if action = "add" then
              match element with
              | some el =>
                (({ board with elements := board.elements ++ [stampCreate uid now el] }).updateLastModified uid now, true)
              | none => (board, false)
            else if action = "update" then
              match element with
              | some el =>
                if board.elements.any (fun e => e.id == el.id) then
                  let merged := { el with updatedAt := some now, lastModifiedBy := some uid }
                  let newEls := updateFirst (fun e => e.id == el.id) (fun _ => merged) board.elements
                  (({ board with elements := newEls }).updateLastModified uid now, true)
                else (board, false)
              | none => (board, false)
            else if action = "delete" then
              match element with
              | some el =>
                (({ board with elements := board.elements.filter (fun e => e.id != el.id) }).updateLastModified uid now, true)
              | none => (board, false)
            else if action = "batch" then
              match elements with
              | some els =>
                (({ board with elements := els.map (stampTouch uid now) }).updateLastModified uid now, true)
              | none => (board, false)
            else (board, false)
          ((if step.2 then some step.1 else none),
           [⟨Target.roomExceptSender,
             SEvent.canvasUpdated (if action = "batch" then elements.getD [] else step.1.elements) action element⟩,
            ⟨Target.sender, SEvent.canvasUpdateConfirmed action element⟩])

/-- The `element-create` handler: membership, board lookup and access checks,
then creation stamping, append, persist, and an `element-created` broadcast
via `io.to(boardId)` (the whole room). -/
def elementCreate (uid : String) (currentBoard : Option String) (boardId : String)
    (board? : Option Board) (element : Element) (now : Nat) : Option Board × List Emit :=
  if currentBoard ≠ some boardId then
    (none, [⟨Target.sender, SEvent.error "Not in this board"⟩])
  else
    match board? with
    | none => (none, [⟨Target.sender, SEvent.error "Board not found"⟩])
    | some board =>
      match board.hasAccess uid with
      | none => (none, [⟨Target.sender, SEvent.error "No edit permission"⟩])
      | some role =>
        if role = Role.viewer then
          (none, [⟨Target.sender, SEvent.error "No edit permission"⟩])
        else
          let newEl := stampCreate uid now element
          (some (({ board with elements := board.elements ++ [newEl] }).updateLastModified uid now),
           [⟨Target.room, SEvent.elementCreated newEl⟩])

/-- The `element-update` handler: after the same checks, locate the element
by id; when present, merge the payload over it (the payload carries every
field, so the object spread replaces them all), stamp modifier and
timestamp, persist and broadcast `element-updated` via `io.to(boardId)`;
when absent, reply with an error to the sender only. -/
def elementUpdate (uid : String) (currentBoard : Option String) (boardId : String)
    (board? : Option Board) (element : Element) (now : Nat) : Option Board × List Emit :=
  if currentBoard ≠ some boardId then
    (none, [⟨Target.sender, SEvent.error "Not in this board"⟩])
  else
    match board? with
    | none => (none, [⟨Target.sender, SEvent.error "Board not found"⟩])
    | some board =>
      match board.hasAccess uid with
      | none => (none, [⟨Target.sender, SEvent.error "No edit permission"⟩])
      | some role =>
        if role = Role.viewer then
          (none, [⟨Target.sender, SEvent.error "No edit permission"⟩])
        else
          if board.elements.any (fun e => e.id == element.id) then
            let merged := { element with updatedAt := some now, lastModifiedBy := some uid }
            let newEls := updateFirst (fun e => e.id == element.id) (fun _ => merged) board.elements
            (some (({ board with elements := newEls }).updateLastModified uid now),
             [⟨Target.room, SEvent.elementUpdated merged⟩])
          else
            (none, [⟨Target.sender, SEvent.error "Element not found"⟩])

/-- The `element-delete` handler: after the same checks, remove the element
by id when present, persist, and broadcast `element-deleted` via
`io.to(boardId)`; when the id is absent, reply with an error to the sender
only. -/
def elementDelete (uid : String) (currentBoard : Option String) (boardId : String)
    (board? : Option Board) (elementId : String) (now : Nat) : Option Board × List Emit :=
  if currentBoard ≠ some boardId then
    (none, [⟨Target.sender, SEvent.error "Not in this board"⟩])
  else
    match board? with
    | none => (none, [⟨Target.sender, SEvent.error "Board not found"⟩])
    | some board =>
      match board.hasAccess uid with
      | none => (none, [⟨Target.sender, SEvent.error "No edit permission"⟩])
      | some role =>
        if role = Role.viewer then
          (none, [⟨Target.sender, SEvent.error "No edit permission"⟩])
        else
          if board.elements.any (fun e => e.id == elementId) then
            (some (({ board with elements := board.elements.filter (fun e => e.id != elementId) }).updateLastModified uid now),
             [⟨Target.room, SEvent.elementDeleted elementId⟩])
          else
            (none, [⟨Target.sender, SEvent.error "Element not found"⟩])

/-- The `board-save` handler: after the membership check, the elements are
persisted only when a board is found and the sender has a non-viewer role;
in every case a `board-saved` event carrying the sender and the element
count is broadcast to the rest of the room, and no error is produced on a
failed permission check. -/
def boardSave (uid : String) (currentBoard : Option String) (boardId : String)
    (board? : Option Board) (elements : Option (List Element)) (now : Nat) :
    Option Board × List Emit :=
  if currentBoard ≠ some boardId then
    (none, [⟨Target.sender, SEvent.error "Not in this board"⟩])
  else
    let saved : Option Board :=
      match elements with
      | some els =>
        match board? with
        | some board =>
          match board.hasAccess uid with
          | some role =>
            if role ≠ Role.viewer then
              some (({ board with elements := els.map (stampTouch uid now) }).updateLastModified uid now)
            else none
          | none => none
        | none => none
      | none => none
    (saved,
     [⟨Target.roomExceptSender,
       SEvent.boardSaved uid (match elements with | some els => els.length | none => 0)⟩])

/-- Association-list lookup mirroring `Map.get`. -/
def alGet {α : Type} (l : List (String × α)) (k : String) : Option α :=
  (l.find? (fun p => p.1 == k)).map (fun p => p.2)

/-- Association-list insert-or-replace mirroring `Map.set`. -/
def alSet {α : Type} : List (String × α) → String → α → List (String × α)
  | [], k, v => [(k, v)]
  | p :: rest, k, v => if p.1 == k then (k, v) :: rest else p :: alSet rest k v

/-- Association-list key removal mirroring `Map.delete`. -/
def alDrop {α : Type} (l : List (String × α)) (k : String) : List (String × α) :=
  l.filter (fun p => p.1 != k)

/-- Members of a room, empty when the room is untracked. -/
def roomMembers (rooms : List (String × List String)) (b : String) : List String :=
  (alGet rooms b).getD []

/-- Add a user to a room set, creating the room when missing
(`if (!boardRooms.has(boardId)) boardRooms.set(boardId, new Set())` followed
by `.add`); set semantics, so an already present member is not duplicated. -/
def roomAdd (rooms : List (String × List String)) (b u : String) : List (String × List String) :=
  match alGet rooms b with
  | some l => alSet rooms b (if l.contains u then l else l ++ [u])
  | none => alSet rooms b [u]

/-- Remove a user from a room set, keeping the (possibly empty) room entry;
this is the `socket.leave` behaviour. -/
def roomRemove (rooms : List (String × List String)) (b u : String) : List (String × List String) :=
  match alGet rooms b with
  | some l => alSet rooms b (l.filter (fun x => x != u))
  | none => rooms

/-- Remove a user from a room set and drop the room entry when it empties;
this is the `boardRooms` bookkeeping in `handleUserLeaveBoard`. -/
def roomRemoveDrop (rooms : List (String × List String)) (b u : String) : List (String × List String) :=
  match alGet rooms b with
  | some l =>
    let l2 := l.filter (fun x => x != u)
    if l2.isEmpty then alDrop rooms b else alSet rooms b l2
  | none => rooms

/-- The process-local presence state of the socket layer: `activeUsers` maps
a connected user id to its current board (the `currentBoard` field of the
stored user record), `boardRooms` is the board-membership tracking used to
compute active-user lists, and `socketRooms` is the socket.io room
membership used for delivery, maintained by `socket.join` and
`socket.leave`. -/
structure PresenceState where
  activeUsers : List (String × Option String) := []
  boardRooms : List (String × List String) := []
  socketRooms : List (String × List String) := []
deriving DecidableEq, Repr

/-- Connection setup: the user is stored in `activeUsers` with no current
board. -/
def connect (st : PresenceState) (u : String) : PresenceState :=
  { st with activeUsers := alSet st.activeUsers u none }

/-- The active-user list computed for a board: the tracked room members,
each mapped through `activeUsers` and kept only when still connected
(the `.map(...).filter(Boolean)` chain). -/
def usersInBoard (st : PresenceState) (b : String) : List String :=
  (roomMembers st.boardRooms b).filter (fun u2 => (alGet st.activeUsers u2).isSome)

/-- The `join-board` handler with the external access check abstracted to
its outcome: on denial, an error to the sender only; on success the socket
leaves the previous socket.io room (but the previous `boardRooms` entry is
not touched), joins the new room, `currentBoard` is updated, the user is
added to the board room tracking, and `user-joined`, `board-joined` and
`active-users-updated` are emitted. -/
def joinBoard (st : PresenceState) (u b : String) (access : Option Role) :
    PresenceState × List Emit :=
  match access with
  | none => (st, [⟨Target.sender, SEvent.error "Access denied to board"⟩])
  | some _ =>
    let st1 :=
      match alGet st.activeUsers u with
      | some (some prev) => { st with socketRooms := roomRemove st.socketRooms prev u }
      | _ => st
    let st2 := { st1 with socketRooms := roomAdd st1.socketRooms b u }
    let st3 := { st2 with activeUsers := alSet st2.activeUsers u (some b) }
    let st4 := { st3 with boardRooms := roomAdd st3.boardRooms b u }
    let active := usersInBoard st4 b
    (st4,
     [⟨Target.roomExceptSender, SEvent.userJoined u⟩,
      ⟨Target.sender, SEvent.boardJoined b active⟩,
      ⟨Target.room, SEvent.activeUsersUpdated active⟩])

/-- `handleUserLeaveBoard`: remove the user from the board room tracking
(dropping an emptied room), notify the others, leave the socket.io room,
broadcast the recomputed active-user list when the room still exists, and
clear the stored `currentBoard`. -/
def leaveBoard (st : PresenceState) (u b : String) : PresenceState × List Emit :=
  let st1 := { st with boardRooms := roomRemoveDrop st.boardRooms b u }
  let st2 := { st1 with socketRooms := roomRemove st1.socketRooms b u }
  let evs :=
    if (alGet st2.boardRooms b).isSome then
      [⟨Target.roomExceptSender, SEvent.userLeft u⟩,
       ⟨Target.roomExceptSender, SEvent.activeUsersUpdated (usersInBoard st2 b)⟩]
    else [(⟨Target.roomExceptSender, SEvent.userLeft u⟩ : Emit)]
  let st3 :=
    match alGet st2.activeUsers u with
    | some _ => { st2 with activeUsers := alSet st2.activeUsers u none }
    | none => st2
  (st3, evs)

/-- The `leave-board` handler: delegate to `handleUserLeaveBoard` when a
current board is recorded. -/
def leaveBoardEvent (st : PresenceState) (u : String) : PresenceState × List Emit :=
  match alGet st.activeUsers u with
  | some (some b) => leaveBoard st u b
  | _ => (st, [])

/-- The disconnect handler: leave the current board when one is recorded,
then delete the user from `activeUsers`. -/
def disconnect (st : PresenceState) (u : String) : PresenceState × List Emit :=
  let r :=
    match alGet st.activeUsers u with
    | some (some b) => leaveBoard st u b
    | _ => (st, [])
  ({ r.1 with activeUsers := alDrop r.1.activeUsers u }, r.2)

/-- State of the client history manager in CanvasPageFixed: the snapshot
list, the pointer (starting at -1), and the live element array. -/
structure Hist (α : Type) where
  history : List (List α)
  index : Int
  current : List α
deriving DecidableEq, Repr

/-- `recordHistory(els)`: drop every entry past the pointer, append the
snapshot (`JSON.parse(JSON.stringify(els))`, the identity on this pure
data), shift the oldest entry out when the length exceeds 50, and advance
the pointer to `min(index + 1, 49)`. -/
def recordHistory {α : Type} (st : Hist α) (els : List α) : Hist α :=
  let trimmed := st.history.take (st.index + 1).toNat
  let next := trimmed ++ [els]
  let capped := if next.length > 50 then next.tail else next
  { st with history := capped, index := min (st.index + 1) 49 }

/-- A committed mutation: the live array is replaced by the new elements and
a history snapshot is recorded. -/
def commit {α : Type} (st : Hist α) (els : List α) : Hist α :=
  { recordHistory st els with current := els }

/-- A sequence of committed mutations, applied in order. -/
def commitAll {α : Type} (st : Hist α) (ss : List (List α)) : Hist α :=
  ss.foldl commit st

/-- `undo`: at pointer 0 or below, only clamp the pointer to 0 without
touching the live array; otherwise move the pointer back and restore a copy
of that snapshot. Out-of-range reads default to the empty array. -/
def undo {α : Type} (st : Hist α) : Hist α :=
  if st.index ≤ 0 then { st with index := 0 }
  else { st with index := st.index - 1, current := st.history.getD (st.index - 1).toNat [] }

/-- `redo`: a no-op at the top of the history, otherwise move the pointer
forward and restore that snapshot. -/
def redo {α : Type} (st : Hist α) : Hist α :=
  if st.index ≥ (st.history.length : Int) - 1 then st
  else { st with index := st.index + 1, current := st.history.getD (st.index + 1).toNat [] }

/-- Inbound `element-created` application in CanvasPageFixed: append only
when no element with the same id is already present. -/
def handleElementCreate (store : List Element) (el : Element) : List Element :=
  match store.find? (fun e => e.id == el.id) with
  | some _ => store
  | none => store ++ [el]

/-- Inbound `element-updated` application: merge by id; the payload is a
full element, so the object spread over the old element replaces every
field. Elements with other ids are untouched. -/
def handleElementUpdate (store : List Element) (u : Element) : List Element :=
  store.map (fun el => if el.id == u.id then u else el)

/-- Inbound `element-deleted` application: remove by id. -/
def handleElementDelete (store : List Element) (elementId : String) : List Element :=
  store.filter (fun el => el.id != elementId)

/-- The clamped closest point of a segment to a query point, from
`distanceToLine`: a degenerate segment yields its endpoint, otherwise the
projection parameter is clamped to [0, 1]. -/
def closestPointOnSegment (px py x1 y1 x2 y2 : ℚ) : ℚ × ℚ :=
  let c := x2 - x1
  let d := y2 - y1
  let lenSq := c * c + d * d
  if lenSq = 0 then (x1, y1)
  else
    let param := ((px - x1) * c + (py - y1) * d) / lenSq
    if param < 0 then (x1, y1)
    else if param > 1 then (x2, y2)
    else (x1 + param * c, y1 + param * d)

/-- Squared point-to-segment distance; `distanceToLine` returns its square
root, and every use compares it with the threshold 10, which is equivalent
to comparing this value with 100. -/
def distanceToLineSq (px py x1 y1 x2 y2 : ℚ) : ℚ :=
  let q := closestPointOnSegment px py x1 y1 x2 y2
  (px - q.1) * (px - q.1) + (py - q.2) * (py - q.2)

/-- Consecutive point pairs of a freehand path (`points[j], points[j+1]`). -/
def consecutivePairs (l : List (ℚ × ℚ)) : List ((ℚ × ℚ) × (ℚ × ℚ)) :=
  l.zip l.tail

/-- Per-element hit test from `findElementAtPosition`: segment distance
below 10 for lines and arrows, minimum segment distance below 10 over
consecutive point pairs for freehand, and the inclusive axis-aligned
bounding box for every other type. -/
def hitTest (x y : ℚ) (e : Element) : Bool :=
  if e.type == "line" || e.type == "arrow" then
    decide (distanceToLineSq x y e.x e.y e.x2 e.y2 < 100)
  else if e.type == "freehand" then
    (consecutivePairs e.points).any
      (fun pq => decide (distanceToLineSq x y pq.1.1 pq.1.2 pq.2.1 pq.2.2 < 100))
  else
    decide (e.x ≤ x ∧ x ≤ e.x + e.width ∧ e.y ≤ y ∧ y ≤ e.y + e.height)

/-- `findElementAtPosition`: scan the element array from the last entry to
the first and return the first hit, so the top-most element wins. -/
def findElementAtPosition (elements : List Element) (x y : ℚ) : Option Element :=
  elements.reverse.find? (hitTest x y)

/-- Pen-tool pointer-down in `startDrawingSurface`: a single-point freehand
element at the pointer with width and height 1. -/
def startPen (x y : ℚ) : Element :=
  { id := "freehand-temp", type := "freehand", points := [(x, y)],
    x := x, y := y, width := 1, height := 1 }

/-- Minimum of a list of rationals (`Math.min(...xs)` on a nonempty list). -/
def qMin : List ℚ → ℚ
  | [] => 0
  | h :: t => t.foldl min h

/-- Maximum of a list of rationals (`Math.max(...xs)` on a nonempty list). -/
def qMax : List ℚ → ℚ
  | [] => 0
  | h :: t => t.foldl max h

/-- The JS fallback `v || 1`: a zero extent is replaced by 1. -/
def jsOrOne (q : ℚ) : ℚ := if q = 0 then 1 else q

/-- One pointer-move step of `handlePenDrawing`: the sample is dropped when
its distance to the last retained point is below 2 (`Math.hypot < 2`,
squared here); otherwise it is appended and the bounding box is recomputed
from all points, with the `|| 1` fallback on zero extents. -/
def penMove (el : Element) (px py : ℚ) : Element :=
  match el.points.getLast? with
  | none => el
  | some lp =>
    if (px - lp.1) * (px - lp.1) + (py - lp.2) * (py - lp.2) < 4 then el
    else
      let newPoints := el.points ++ [(px, py)]
      let xs := newPoints.map Prod.fst
      let ys := newPoints.map Prod.snd
      { el with
        points := newPoints
        x := qMin xs
        y := qMin ys
        width := jsOrOne (qMax xs - qMin xs)
        height := jsOrOne (qMax ys - qMin ys) }

/-- A whole freehand stroke: pointer-down at the first raw sample followed
by one `penMove` per further raw sample; pointer-up commits the element as
it stands. -/
def penStroke (x0 y0 : ℚ) (moves : List (ℚ × ℚ)) : Element :=
  moves.foldl (fun el p => penMove el p.1 p.2) (startPen x0 y0)

/-- Whether every consecutive pair of raw samples is less than 2 pixels
apart (squared distance below 4). -/
def closeRun : List (ℚ × ℚ) → Bool
  | p :: q :: rest =>
    decide ((q.1 - p.1) * (q.1 - p.1) + (q.2 - p.2) * (q.2 - p.2) < 4) && closeRun (q :: rest)
  | _ => true

/-- A sample sticky-note element used in concrete instances. -/
def sampleElement : Element :=
  { id := "e1", type := "sticky", x := 100, y := 100, width := 240, height := 120 }

/-- A sample element whose id differs from every stored element. -/
def otherElement : Element := { id := "zzz", type := "shape" }

/-- A board owned by user o with user v as a viewer collaborator. -/
def boardWithViewer : Board := { owner := "o", collaborators := [("v", Role.viewer)] }

/-- A board owned by user o, with viewer v, holding one element. -/
def boardWithElement : Board :=
  { owner := "o", collaborators := [("v", Role.viewer)], elements := [sampleElement] }

/-- Claim C1: a connection whose role on the board is viewer has every
mutation attempt rejected: each of the canvas-update actions add, update,
delete and batch, and each of element-create, element-update and
element-delete, writes nothing to the store and produces exactly one
error event targeted at the sender, so no peer receives anything. -/
theorem viewer_mutation_rejected (uid boardId : String) (board : Board)
    (el : Element) (eid : String) (now : Nat)
    (hrole : board.hasAccess uid = some Role.viewer) :
    (∀ action : String, action ∈ (["add", "update", "delete", "batch"] : List String) →
      ∀ oe : Option Element, ∀ oels : Option (List Element),
        canvasUpdate uid (some boardId) boardId (some board) action oe oels now =
          (none, [⟨Target.sender, SEvent.error "No edit permission for this board"⟩])) ∧
    (elementCreate uid (some boardId) boardId (some board) el now =
      (none, [⟨Target.sender, SEvent.error "No edit permission"⟩])) ∧
    (elementUpdate uid (some boardId) boardId (some board) el now =
      (none, [⟨Target.sender, SEvent.error "No edit permission"⟩])) ∧
    (elementDelete uid (some boardId) boardId (some board) eid now =
      (none, [⟨Target.sender, SEvent.error "No edit permission"⟩])) := by
  refine ⟨?_, ?_, ?_, ?_⟩
  · intro action ha oe oels
    have hne : action ≠ "cursor" := by
      simp only [List.mem_cons, List.not_mem_nil, or_false] at ha
      rcases ha with rfl | rfl | rfl | rfl <;> decide
    simp [canvasUpdate, hrole, hne]
  · simp [elementCreate, hrole]
  · simp [elementUpdate, hrole]
  · simp [elementDelete, hrole]

/-- Concrete instance of `viewer_mutation_rejected` for the viewer v on a
sample board. -/
theorem viewer_mutation_rejected_witness :
    elementCreate "v" (some "b") "b" (some boardWithViewer) sampleElement 5 =
      (none, [⟨Target.sender, SEvent.error "No edit permission"⟩]) ∧
    canvasUpdate "v" (some "b") "b" (some boardWithViewer) "add" (some sampleElement) none 5 =
      (none, [⟨Target.sender, SEvent.error "No edit permission for this board"⟩]) := by
  have h := viewer_mutation_rejected "v" "b" boardWithViewer sampleElement "x" 5 (by decide)
  exact ⟨h.2.1, h.1 "add" (by decide) (some sampleElement) none⟩

/-- Claim C10: a board-save from a viewer member persists nothing and sends
no error, yet still broadcasts board-saved, with the sender and the element
count, to the rest of the room. -/
theorem board_save_viewer (uid boardId : String) (board : Board)
    (els : List Element) (now : Nat)
    (hrole : board.hasAccess uid = some Role.viewer) :
    boardSave uid (some boardId) boardId (some board) (some els) now =
      (none, [⟨Target.roomExceptSender, SEvent.boardSaved uid els.length⟩]) ∧
    deliveredToSender Target.roomExceptSender = false ∧
    deliveredToPeer Target.roomExceptSender = true := by
  refine ⟨?_, rfl, rfl⟩
  simp [boardSave, hrole]

/-- Concrete instance of `board_save_viewer`. -/
theorem board_save_viewer_witness :
    boardSave "v" (some "b") "b" (some boardWithElement) (some [sampleElement, otherElement]) 5 =
      (none, [⟨Target.roomExceptSender, SEvent.boardSaved "v" 2⟩]) := by
  have h := board_save_viewer "v" "b" boardWithElement [sampleElement, otherElement] 5 (by decide)
  exact h.1

/-- Claim C6: client-side application of inbound element events is
idempotent: element-created with an already present id leaves the store
unchanged, element-updated with an unknown id leaves the store unchanged,
and applying element-deleted twice equals applying it once. -/
theorem sync_bridge_idempotent :
    (∀ (store : List Element) (el : Element),
      (∃ e ∈ store, e.id = el.id) → handleElementCreate store el = store) ∧
    (∀ (store : List Element) (u : Element),
      (∀ e ∈ store, e.id ≠ u.id) → handleElementUpdate store u = store) ∧
    (∀ (store : List Element) (i : String),
      handleElementDelete (handleElementDelete store i) i = handleElementDelete store i) := by
  refine ⟨?_, ?_, ?_⟩
  · rintro store el ⟨e, he, hid⟩
    have hne : store.find? (fun x => x.id == el.id) ≠ none := by
      intro hnone
      rw [List.find?_eq_none] at hnone
      exact hnone e he (by simp [hid])
    rcases hfind : store.find? (fun x => x.id == el.id) with _ | e2
    · exact absurd hfind hne
    · simp [handleElementCreate, hfind]
  · intro store u h
    induction store with
    | nil => rfl
    | cons e rest ih =>
      have h1 : (e.id == u.id) = false := by
        simpa using h e (List.mem_cons_self e rest)
      have h2 := ih (fun x hx => h x (List.mem_cons_of_mem e hx))
      unfold handleElementUpdate at h2 ⊢
      rw [List.map_cons, h2, h1]
      simp
  · intro store i
    simp [handleElementDelete, List.filter_filter]

/-- Concrete instance of `sync_bridge_idempotent`. -/
theorem sync_bridge_idempotent_witness :
    handleElementCreate [sampleElement] sampleElement = [sampleElement] ∧
    handleElementUpdate [sampleElement] otherElement = [sampleElement] ∧
    handleElementDelete (handleElementDelete [sampleElement] "e1") "e1" =
      handleElementDelete [sampleElement] "e1" := by
  have h := sync_bridge_idempotent
  exact ⟨h.1 [sampleElement] sampleElement (by decide),
         h.2.1 [sampleElement] otherElement (by decide),
         h.2.2 [sampleElement] "e1"⟩

/-- Counterexample to claim C3 as stated: deleting a nonexistent element id
through the element-delete handler is not silent; the handler emits an
Element not found error to the sender, so the event list is nonempty. -/
theorem delete_missing_id_emits_error :
    (elementDelete "o" (some "b") "b" (some boardWithElement) "zzz" 5).2 =
      [⟨Target.sender, SEvent.error "Element not found"⟩] ∧
    (elementDelete "o" (some "b") "b" (some boardWithElement) "zzz" 5).2 ≠ ([] : List Emit) := by
  decide

/-- Claim C3 (amended): for a mutation referencing an element id absent from
the board, both element-update and element-delete leave the store
untouched (nothing is persisted), broadcast nothing to any peer, and reply
with an Element not found error to the sender only. -/
theorem missing_id_update_delete (uid boardId : String) (board : Board)
    (el : Element) (eid : String) (now : Nat) (r : Role)
    (hacc : board.hasAccess uid = some r) (hr : r ≠ Role.viewer)
    (hup : ∀ e ∈ board.elements, e.id ≠ el.id)
    (hdel : ∀ e ∈ board.elements, e.id ≠ eid) :
    elementUpdate uid (some boardId) boardId (some board) el now =
      (none, [⟨Target.sender, SEvent.error "Element not found"⟩]) ∧
    elementDelete uid (some boardId) boardId (some board) eid now =
      (none, [⟨Target.sender, SEvent.error "Element not found"⟩]) := by
  have h1 : board.elements.any (fun e => e.id == el.id) = false := by
    rw [List.any_eq_false]
    intro e he
    simpa using hup e he
  have h2 : board.elements.any (fun e => e.id == eid) = false := by
    rw [List.any_eq_false]
    intro e he
    simpa using hdel e he
  constructor
  · simp [elementUpdate, hacc, hr, h1]
  · simp [elementDelete, hacc, hr, h2]

/-- Concrete instance of `missing_id_update_delete`. -/
theorem missing_id_update_delete_witness :
    elementUpdate "o" (some "b") "b" (some boardWithElement) otherElement 5 =
      (none, [⟨Target.sender, SEvent.error "Element not found"⟩]) ∧
    elementDelete "o" (some "b") "b" (some boardWithElement) "zzz" 5 =
      (none, [⟨Target.sender, SEvent.error "Element not found"⟩]) :=
  missing_id_update_delete "o" "b" boardWithElement otherElement "zzz" 5 Role.owner
    (by decide) (by decide) (by decide) (by decide)

/-- Counterexample to claim C5 as stated: a successful element-create
broadcasts element-created through the whole-room target, which delivers to
the sender as well, contradicting a broadcast to every member except the
sender. -/
theorem element_created_reaches_sender :
    ((elementCreate "o" (some "b") "b" (some boardWithElement) otherElement 5).2.map
        (fun e => e.target)) = [Target.room] ∧
    deliveredToSender Target.room = true := by
  decide

/-- Claim C5 (amended): a successful add by a member with edit rights
assigns a fresh id exactly when the incoming element lacks one, stamps the
creator and the created and updated timestamps, appends the element to the
board, persists the board with a bumped version, and broadcasts
element-created carrying that element to every member of the room,
including the sender. -/
theorem element_create_success (uid boardId : String) (board : Board)
    (el : Element) (now : Nat) (r : Role)
    (hacc : board.hasAccess uid = some r) (hr : r ≠ Role.viewer) :
    elementCreate uid (some boardId) boardId (some board) el now =
      (some (({ board with elements := board.elements ++ [stampCreate uid now el] }).updateLastModified uid now),
       [⟨Target.room, SEvent.elementCreated (stampCreate uid now el)⟩]) ∧
    (stampCreate uid now el).createdBy = some uid ∧
    (stampCreate uid now el).createdAt = some now ∧
    (stampCreate uid now el).updatedAt = some now ∧
    (el.id = "" → (stampCreate uid now el).id = freshId now) ∧
    (el.id ≠ "" → (stampCreate uid now el).id = el.id) ∧
    (({ board with elements := board.elements ++ [stampCreate uid now el] }).updateLastModified uid now).version
      = board.version + 1 ∧
    deliveredToSender Target.room = true ∧
    deliveredToPeer Target.room = true := by
  refine ⟨?_, rfl, rfl, rfl, ?_, ?_, rfl, rfl, rfl⟩
  · simp [elementCreate, hacc, hr]
  · intro h
    simp [stampCreate, h]
  · intro h
    simp [stampCreate, h]

/-- Concrete instance of `element_create_success`. -/
theorem element_create_success_witness :
    (elementCreate "o" (some "b") "b" (some boardWithElement) otherElement 5).2 =
      [⟨Target.room, SEvent.elementCreated (stampCreate "o" 5 otherElement)⟩] := by
  have h := element_create_success "o" "b" boardWithElement otherElement 5 Role.owner
    (by decide) (by decide)
  rw [h.1]

/-- The presence state reached when connection u joins board A and then
board B, both grants succeeding. -/
def rejoinTrace : PresenceState :=
  (joinBoard ((joinBoard (connect {} "u") "u" "A" (some Role.editor)).1) "u" "B"
    (some Role.editor)).1

/-- Claim C2 evaluated at the failing input: after u joins board A and then
board B, the stored current board is B and the socket.io membership of A is
gone, yet the tracked member set of board A still contains u, and the
active-user list that would be broadcast for A still lists u. The presence
invariant of the claim requires u to have been removed from the member set
of A. -/
theorem rejoin_keeps_stale_membership :
    alGet rejoinTrace.activeUsers "u" = some (some "B") ∧
    roomMembers rejoinTrace.socketRooms "A" = [] ∧
    roomMembers rejoinTrace.boardRooms "A" = ["u"] ∧
    roomMembers rejoinTrace.boardRooms "B" = ["u"] ∧
    usersInBoard rejoinTrace "A" = ["u"] := by
  decide

/-- Unfolding of `recordHistory` on a literal state. -/
theorem recordHistory_mk {α : Type} (hist : List (List α)) (i : Int) (cur els : List α) :
    recordHistory ⟨hist, i, cur⟩ els =
      ⟨(if ((hist.take (i + 1).toNat) ++ [els]).length > 50
        then ((hist.take (i + 1).toNat) ++ [els]).tail
        else (hist.take (i + 1).toNat) ++ [els]),
       min (i + 1) 49, cur⟩ := rfl

/-- Unfolding of `commit` on a literal state. -/
theorem commit_mk {α : Type} (hist : List (List α)) (i : Int) (cur els : List α) :
    commit ⟨hist, i, cur⟩ els =
      ⟨(if ((hist.take (i + 1).toNat) ++ [els]).length > 50
        then ((hist.take (i + 1).toNat) ++ [els]).tail
        else (hist.take (i + 1).toNat) ++ [els]),
       min (i + 1) 49, els⟩ := rfl

/-- Unfolding of `undo` on a literal state. -/
theorem undo_mk {α : Type} (hist : List (List α)) (i : Int) (cur : List α) :
    undo ⟨hist, i, cur⟩ =
      if i ≤ 0 then ⟨hist, 0, cur⟩
      else ⟨hist, i - 1, hist.getD (i - 1).toNat []⟩ := rfl

/-- Unfolding of `redo` on a literal state. -/
theorem redo_mk {α : Type} (hist : List (List α)) (i : Int) (cur : List α) :
    redo ⟨hist, i, cur⟩ =
      if i ≥ (hist.length : Int) - 1 then ⟨hist, i, cur⟩
      else ⟨hist, i + 1, hist.getD (i + 1).toNat []⟩ := rfl

/-- A commit from a mid-history state appends the snapshot and advances the
pointer, provided the pointer sits on the last entry and the bound is not
reached. -/
theorem commit_step {α : Type} (hist : List (List α)) (n : Nat) (cur s : List α)
    (hL : hist.length = n + 1) (hn : n ≤ 48) :
    commit ⟨hist, (n : Int), cur⟩ s = ⟨hist ++ [s], ((n + 1 : Nat) : Int), s⟩ := by
  rw [commit_mk]
  have ht : ((n : Int) + 1).toNat = n + 1 := by omega
  rw [ht, List.take_of_length_le (le_of_eq hL), if_neg (by simp [hL]; omega)]
  congr 1
  omega

/-- The very first commit from the pristine state (empty history, pointer
at -1) yields a one-snapshot history with the pointer at 0. -/
theorem commit_first {α : Type} (init s : List α) :
    commit ⟨[], (-1 : Int), init⟩ s = ⟨[s], ((0 : Nat) : Int), s⟩ := by
  rw [commit_mk]
  congr 1

/-- Committing a sequence of snapshots from a well-formed state appends
them all and leaves the pointer on the last one, as long as the 50-snapshot
bound is never hit. -/
theorem commitAll_spec {α : Type} :
    ∀ (ss : List (List α)) (hist : List (List α)) (n : Nat) (cur : List α),
      hist.length = n + 1 → n + ss.length ≤ 49 → cur = hist.getD n [] →
      commitAll ⟨hist, (n : Int), cur⟩ ss =
        ⟨hist ++ ss, ((n + ss.length : Nat) : Int), (hist ++ ss).getD (n + ss.length) []⟩ := by
  intro ss
  induction ss with
  | nil =>
    intro hist n cur hL hb hcur
    simp [commitAll, hcur]
  | cons s rest ih =>
    intro hist n cur hL hb hcur
    have hstep : commitAll ⟨hist, (n : Int), cur⟩ (s :: rest) =
        commitAll (commit ⟨hist, (n : Int), cur⟩ s) rest := rfl
    rw [hstep, commit_step hist n cur s hL (by simp only [List.length_cons] at hb; omega)]
    have hget : s = (hist ++ [s]).getD hist.length [] := by
      rw [List.getD_eq_getElem?_getD, List.getElem?_concat_length]
      rfl
    rw [hL] at hget
    have hres := ih (hist ++ [s]) (n + 1) s
      (by simp only [List.length_append, List.length_cons, List.length_nil]; omega)
      (by simp only [List.length_cons] at hb; omega) hget
    rw [hres]
    have hli : hist ++ [s] ++ rest = hist ++ s :: rest := by
      rw [List.append_assoc, List.singleton_append]
    have hidx : n + 1 + rest.length = n + (s :: rest).length := by
      simp only [List.length_cons]
      omega
    rw [hli, hidx]

/-- Undoing k times from a pointer at n walks the pointer back to n - k and
restores that snapshot, while the pointer stays in range. -/
theorem undo_pow {α : Type} :
    ∀ (k : Nat) (hist : List (List α)) (n : Nat), k ≤ n → n < hist.length →
      undo^[k] ⟨hist, (n : Int), hist.getD n []⟩ =
        ⟨hist, ((n - k : Nat) : Int), hist.getD (n - k) []⟩ := by
  intro k
  induction k with
  | zero =>
    intro hist n _ _
    simp
  | succ k ih =>
    intro hist n hk hn
    rw [Function.iterate_succ_apply]
    have hundo : undo ⟨hist, (n : Int), hist.getD n []⟩ =
        ⟨hist, ((n - 1 : Nat) : Int), hist.getD (n - 1) []⟩ := by
      rw [undo_mk, if_neg (by omega)]
      have e1 : ((n : Int) - 1).toNat = n - 1 := by omega
      have e2 : (n : Int) - 1 = ((n - 1 : Nat) : Int) := by omega
      rw [e1, e2]
    rw [hundo, ih hist (n - 1) (by omega) (by omega)]
    have e3 : n - 1 - k = n - (k + 1) := by omega
    rw [e3]

/-- Redoing k times from a pointer at n walks the pointer forward to n + k
and restores that snapshot, while the pointer stays in range. -/
theorem redo_pow {α : Type} :
    ∀ (k : Nat) (hist : List (List α)) (n : Nat), n + k < hist.length →
      redo^[k] ⟨hist, (n : Int), hist.getD n []⟩ =
        ⟨hist, ((n + k : Nat) : Int), hist.getD (n + k) []⟩ := by
  intro k
  induction k with
  | zero =>
    intro hist n _
    simp
  | succ k ih =>
    intro hist n hn
    rw [Function.iterate_succ_apply]
    have hredo : redo ⟨hist, (n : Int), hist.getD n []⟩ =
        ⟨hist, ((n + 1 : Nat) : Int), hist.getD (n + 1) []⟩ := by
      rw [redo_mk, if_neg (by omega)]
      have e1 : ((n : Int) + 1).toNat = n + 1 := by omega
      have e2 : (n : Int) + 1 = ((n + 1 : Nat) : Int) := by omega
      rw [e1, e2]
    rw [hredo, ih hist (n + 1) (by omega)]
    have e3 : n + 1 + k = n + (k + 1) := by omega
    rw [e3]

/-- Undo at the bottom of the history is a complete no-op. -/
theorem undo_at_zero {α : Type} (hist : List (List α)) (cur : List α) :
    undo ⟨hist, (0 : Int), cur⟩ = ⟨hist, (0 : Int), cur⟩ := by
  rw [undo_mk, if_pos (le_refl (0 : Int))]

/-- Redo at the top of the history is a complete no-op. -/
theorem redo_at_top {α : Type} (hist : List (List α)) (i : Int) (cur : List α)
    (h : (hist.length : Int) - 1 ≤ i) :
    redo ⟨hist, i, cur⟩ = ⟨hist, i, cur⟩ := by
  rw [redo_mk, if_pos h]

/-- Counterexample to claim C4 as stated: the initial element-array state is
never snapshotted (history starts empty and only post-mutation states are
recorded), so after one committed mutation from initial elements a single
undo leaves the live array at the mutated state instead of restoring the
initial one. -/
theorem undo_once_does_not_restore_initial :
    (undo (commit (⟨[], -1, [0]⟩ : Hist Nat) [0, 1])).current = [0, 1] ∧
    (undo (commit (⟨[], -1, [0]⟩ : Hist Nat) [0, 1])).current ≠ [0] := by
  decide

/-- Claim C4 (amended): for a committed sequence of N mutations with
1 ≤ N ≤ 50 starting from the pristine history, undoing N times restores the
earliest retained snapshot — the state after the first committed mutation,
the pre-mutation initial array never being recorded — with the final undo a
no-op at the bottom boundary; redoing N times from there restores the final
state, with the final redo a no-op at the top boundary. -/
theorem undo_redo_round_trip {α : Type} (init s1 : List α) (rest : List (List α))
    (hlen : rest.length ≤ 49) :
    (undo^[(s1 :: rest).length] (commitAll ⟨[], -1, init⟩ (s1 :: rest))).current = s1 ∧
    undo (undo^[(s1 :: rest).length] (commitAll ⟨[], -1, init⟩ (s1 :: rest))) =
      undo^[(s1 :: rest).length] (commitAll ⟨[], -1, init⟩ (s1 :: rest)) ∧
    (redo^[(s1 :: rest).length]
        (undo^[(s1 :: rest).length] (commitAll ⟨[], -1, init⟩ (s1 :: rest)))).current =
      (commitAll ⟨[], -1, init⟩ (s1 :: rest)).current ∧
    redo (redo^[(s1 :: rest).length]
        (undo^[(s1 :: rest).length] (commitAll ⟨[], -1, init⟩ (s1 :: rest)))) =
      redo^[(s1 :: rest).length]
        (undo^[(s1 :: rest).length] (commitAll ⟨[], -1, init⟩ (s1 :: rest))) := by
  have hF : commitAll (⟨[], -1, init⟩ : Hist α) (s1 :: rest) =
      ⟨s1 :: rest, ((rest.length : Nat) : Int), (s1 :: rest).getD rest.length []⟩ := by
    have hstep : commitAll (⟨[], -1, init⟩ : Hist α) (s1 :: rest) =
        commitAll (commit ⟨[], -1, init⟩ s1) rest := rfl
    rw [hstep, commit_first init s1,
      commitAll_spec rest [s1] 0 s1 (by simp) (by omega) rfl]
    simp
  have hB : undo^[(s1 :: rest).length] (commitAll (⟨[], -1, init⟩ : Hist α) (s1 :: rest)) =
      ⟨s1 :: rest, (0 : Int), s1⟩ := by
    rw [hF, show (s1 :: rest).length = rest.length + 1 from rfl,
      Function.iterate_succ_apply',
      undo_pow rest.length (s1 :: rest) rest.length (le_refl _) (by simp only [List.length_cons]; omega),
      Nat.sub_self,
      show ((s1 :: rest).getD 0 []) = s1 from rfl,
      undo_mk, if_pos (by omega)]
  refine ⟨by rw [hB], by rw [hB]; exact undo_at_zero _ _, ?_, ?_⟩
  · rw [hB, hF,
      show (s1 :: rest).length = rest.length + 1 from rfl,
      show (⟨s1 :: rest, (0 : Int), s1⟩ : Hist α) =
        ⟨s1 :: rest, ((0 : Nat) : Int), (s1 :: rest).getD 0 []⟩ from rfl,
      Function.iterate_succ_apply',
      redo_pow rest.length (s1 :: rest) 0 (by simp only [List.length_cons]; omega),
      redo_at_top (s1 :: rest) ((0 + rest.length : Nat) : Int)
        ((s1 :: rest).getD (0 + rest.length) []) (by simp only [List.length_cons]; omega)]
    simp
  · rw [hB,
      show (s1 :: rest).length = rest.length + 1 from rfl,
      show (⟨s1 :: rest, (0 : Int), s1⟩ : Hist α) =
        ⟨s1 :: rest, ((0 : Nat) : Int), (s1 :: rest).getD 0 []⟩ from rfl,
      Function.iterate_succ_apply',
      redo_pow rest.length (s1 :: rest) 0 (by simp only [List.length_cons]; omega),
      redo_at_top (s1 :: rest) ((0 + rest.length : Nat) : Int)
        ((s1 :: rest).getD (0 + rest.length) []) (by simp only [List.length_cons]; omega)]
    rw [redo_at_top (s1 :: rest) ((0 + rest.length : Nat) : Int)
        ((s1 :: rest).getD (0 + rest.length) []) (by simp only [List.length_cons]; omega)]

/-- Concrete instance of `undo_redo_round_trip`. -/
theorem undo_redo_round_trip_witness :
    (undo^[1] (commitAll (⟨[], -1, [0]⟩ : Hist Nat) [[1]])).current = [1] ∧
    (redo^[1] (undo^[1] (commitAll (⟨[], -1, [0]⟩ : Hist Nat) [[1]]))).current =
      (commitAll (⟨[], -1, [0]⟩ : Hist Nat) [[1]]).current := by
  have h := undo_redo_round_trip [0] [1] ([] : List (List Nat)) (by decide)
  exact ⟨h.1, h.2.2.1⟩

/-- Counterexample to claim C7 as stated: the undo handler can run with an
empty history (the keyboard shortcut is not gated), clamping the pointer
from -1 to 0 with no entries; the next recordHistory call then trims
nothing, appends one snapshot, and advances the pointer to 1, one past the
single valid entry. -/
theorem record_after_undo_invalid_pointer :
    (recordHistory (undo (⟨[], -1, []⟩ : Hist Nat)) [1]).index = 1 ∧
    (recordHistory (undo (⟨[], -1, []⟩ : Hist Nat)) [1]).history.length = 1 ∧
    ¬ ((recordHistory (undo (⟨[], -1, []⟩ : Hist Nat)) [1]).index.toNat <
        (recordHistory (undo (⟨[], -1, []⟩ : Hist Nat)) [1]).history.length) := by
  decide

/-- Claim C7 (amended): from any state whose pointer is inside the history
(or at -1 with the history possibly empty), recordHistory discards every
entry past the pointer, appends the snapshot as the new last entry,
advances the pointer to min(index + 1, 49), and afterwards the history
holds at most 50 snapshots — dropping the oldest when full — with the
pointer addressing a valid entry. -/
theorem record_history_spec {α : Type} (st : Hist α) (els : List α)
    (h0 : -1 ≤ st.index) (h1 : st.index < (st.history.length : Int))
    (h2 : st.history.length ≤ 50) :
    (recordHistory st els).index = min (st.index + 1) 49 ∧
    (recordHistory st els).history.length ≤ 50 ∧
    (recordHistory st els).index.toNat < (recordHistory st els).history.length ∧
    (recordHistory st els).history.getLast? = some els ∧
    (recordHistory st els).history =
      (if st.index = 49 then (st.history.take 50 ++ [els]).tail
       else st.history.take (st.index + 1).toNat ++ [els]) := by
  obtain ⟨hist, i, cur⟩ := st
  dsimp only at h0 h1 h2 ⊢
  rw [recordHistory_mk]
  dsimp only
  have hn : (i + 1).toNat ≤ hist.length := by omega
  have hlen : ((hist.take (i + 1).toNat) ++ [els]).length = (i + 1).toNat + 1 := by
    simp only [List.length_append, List.length_take, List.length_cons, List.length_nil]
    omega
  by_cases hc : i = 49
  · subst hc
    have h50 : hist.length = 50 := by omega
    have htn : ((49 : Int) + 1).toNat = 50 := by decide
    have hfull : ((hist.take ((49 : Int) + 1).toNat) ++ [els]).length = 51 := by
      rw [hlen, htn]
    have htrim : (hist.take ((49 : Int) + 1).toNat).length = 50 := by
      simp only [List.length_take]
      omega
    obtain ⟨hd, tl, hcons⟩ :=
      List.exists_cons_of_ne_nil (l := hist.take ((49 : Int) + 1).toNat)
        (by intro hnil; rw [hnil] at htrim; simp at htrim)
    have htllen : tl.length = 49 := by
      have hx := htrim
      rw [hcons] at hx
      simpa using hx
    rw [htn] at hcons hfull ⊢
    rw [if_pos (by rw [hfull]; omega), if_pos rfl, hcons]
    have htail : ((hd :: tl) ++ [els]).tail = tl ++ [els] := rfl
    rw [htail]
    refine ⟨rfl, ?_, ?_, ?_, rfl⟩
    · simp only [List.length_append, List.length_cons, List.length_nil, htllen]
      omega
    · have hm : (min ((49 : Int) + 1) 49).toNat = 49 := by decide
      rw [hm]
      simp only [List.length_append, List.length_cons, List.length_nil, htllen]
      omega
    · simp
  · have hsmall : ¬ (((hist.take (i + 1).toNat) ++ [els]).length > 50) := by
      rw [hlen]
      omega
    rw [if_neg hsmall, if_neg hc]
    refine ⟨rfl, ?_, ?_, ?_, rfl⟩
    · rw [hlen]
      omega
    · have hmin : min (i + 1) 49 = i + 1 := min_eq_left (by omega)
      rw [hmin, hlen]
      omega
    · simp

/-- Concrete instance of `record_history_spec`. -/
theorem record_history_spec_witness :
    (recordHistory (⟨[[0]], 0, [0]⟩ : Hist Nat) [1]).history = [[0], [1]] ∧
    (recordHistory (⟨[[0]], 0, [0]⟩ : Hist Nat) [1]).index.toNat <
      (recordHistory (⟨[[0]], 0, [0]⟩ : Hist Nat) [1]).history.length := by
  have h := record_history_spec (⟨[[0]], 0, [0]⟩ : Hist Nat) [1]
    (by decide) (by decide) (by decide)
  refine ⟨?_, h.2.2.1⟩
  rw [h.2.2.2.2]
  decide

/-- A successful `find?` splits the list into a prefix of misses, the hit,
and a remainder. -/
theorem find?_eq_some_split {α : Type} (p : α → Bool) :
    ∀ (l : List α) (a : α), l.find? p = some a →
      p a = true ∧ ∃ l1 l2, l = l1 ++ a :: l2 ∧ ∀ z ∈ l1, p z = false := by
  intro l
  induction l with
  | nil =>
    intro a h
    simp at h
  | cons x xs ih =>
    intro a h
    cases hx : p x with
    | false =>
      simp only [List.find?, hx] at h
      obtain ⟨hp, l1, l2, rfl, hall⟩ := ih a h
      refine ⟨hp, x :: l1, l2, rfl, ?_⟩
      intro z hz
      rcases List.mem_cons.mp hz with rfl | hz2
      · exact hx
      · exact hall z hz2
    | true =>
      simp only [List.find?, hx] at h
      have hxa : x = a := by simpa using h
      subst hxa
      exact ⟨hx, [], xs, rfl, by simp⟩

/-- Claim C8: `findElementAtPosition` returns `none` exactly when no element
is hit, and otherwise returns a hit element that is top-most: every element
occurring later in the array (drawn on top only if it were hit) misses, so
the scan from the last entry to the first picks the top-most hit. The
per-element test `hitTest` is the bounding-box, segment-distance and
freehand-path test of the source. -/
theorem find_element_top_most (els : List Element) (x y : ℚ) :
    (findElementAtPosition els x y = none ↔ ∀ e ∈ els, hitTest x y e = false) ∧
    (∀ e, findElementAtPosition els x y = some e →
      hitTest x y e = true ∧
      ∃ l1 l2, els = l1 ++ e :: l2 ∧ ∀ e2 ∈ l2, hitTest x y e2 = false) := by
  constructor
  · constructor
    · intro h e he
      rw [findElementAtPosition, List.find?_eq_none] at h
      have hh := h e (List.mem_reverse.mpr he)
      simpa using hh
    · intro h
      rw [findElementAtPosition, List.find?_eq_none]
      intro e he
      simp [h e (List.mem_reverse.mp he)]
  · intro e h
    rw [findElementAtPosition] at h
    obtain ⟨hp, l1, l2, hsplit, hall⟩ := find?_eq_some_split (hitTest x y) els.reverse e h
    refine ⟨hp, l2.reverse, l1.reverse, ?_, ?_⟩
    · have h2 := congrArg List.reverse hsplit
      rw [List.reverse_reverse] at h2
      rw [h2]
      simp [List.reverse_append]
    · intro e2 he2
      exact hall e2 (List.mem_reverse.mp he2)

/-- A sample rectangular element for the hit-test instance. -/
def rectElement : Element :=
  { id := "r", type := "shape", x := 0, y := 0, width := 10, height := 10 }

/-- On an element that is neither line, arrow nor freehand, the hit test is
the inclusive bounding-box check. -/
theorem hitTest_rect (x y : ℚ) (e : Element)
    (h1 : (e.type == "line" || e.type == "arrow") = false)
    (h2 : (e.type == "freehand") = false) :
    hitTest x y e =
      decide (e.x ≤ x ∧ x ≤ e.x + e.width ∧ e.y ≤ y ∧ y ≤ e.y + e.height) := by
  rw [hitTest, h1, h2]
  simp

/-- Concrete instance of `find_element_top_most`. -/
theorem find_element_top_most_witness :
    hitTest 5 5 rectElement = true ∧
    ∃ l1 l2, ([rectElement] : List Element) = l1 ++ rectElement :: l2 ∧
      ∀ e2 ∈ l2, hitTest 5 5 e2 = false := by
  have hhit : hitTest 5 5 rectElement = true := by
    rw [hitTest_rect 5 5 rectElement (by decide) (by decide), decide_eq_true_eq]
    norm_num [rectElement]
  have hfind : findElementAtPosition [rectElement] 5 5 = some rectElement := by
    rw [findElementAtPosition]
    simp [List.find?, hhit]
  exact (find_element_top_most [rectElement] 5 5).2 rectElement hfind

/-- A pen move whose sample is close to the last retained point drops the
sample. -/
theorem penMove_of_close (el : Element) (px py : ℚ) (lp : ℚ × ℚ)
    (hl : el.points.getLast? = some lp)
    (h : (px - lp.1) * (px - lp.1) + (py - lp.2) * (py - lp.2) < 4) :
    penMove el px py = el := by
  unfold penMove
  simp only [hl]
  rw [if_pos h]

/-- A pen move on an element with no points is the identity (never the case
for a live stroke, whose creation retains the first sample). -/
theorem penMove_of_empty (el : Element) (px py : ℚ)
    (hl : el.points.getLast? = none) :
    penMove el px py = el := by
  unfold penMove
  rw [hl]

/-- A pen move whose sample is far from the last retained point appends the
sample and recomputes the bounding box over all points. -/
theorem penMove_of_far (el : Element) (px py : ℚ) (lp : ℚ × ℚ)
    (hl : el.points.getLast? = some lp)
    (h : ¬ ((px - lp.1) * (px - lp.1) + (py - lp.2) * (py - lp.2) < 4)) :
    penMove el px py =
      { el with
        points := el.points ++ [(px, py)]
        x := qMin ((el.points ++ [(px, py)]).map Prod.fst)
        y := qMin ((el.points ++ [(px, py)]).map Prod.snd)
        width := jsOrOne (qMax ((el.points ++ [(px, py)]).map Prod.fst) -
          qMin ((el.points ++ [(px, py)]).map Prod.fst))
        height := jsOrOne (qMax ((el.points ++ [(px, py)]).map Prod.snd) -
          qMin ((el.points ++ [(px, py)]).map Prod.snd)) } := by
  unfold penMove
  simp only [hl]
  rw [if_neg h]

/-- The appended sample becomes the new last retained point. -/
theorem penMove_far_points (el : Element) (px py : ℚ) (lp : ℚ × ℚ)
    (hl : el.points.getLast? = some lp)
    (h : ¬ ((px - lp.1) * (px - lp.1) + (py - lp.2) * (py - lp.2) < 4)) :
    (penMove el px py).points = el.points ++ [(px, py)] ∧
    (penMove el px py).points.getLast? = some (px, py) := by
  rw [penMove_of_far el px py lp hl h]
  constructor
  · rfl
  · simp

/-- A pen move either keeps the point list or appends the sample. -/
theorem penMove_points_cases (el : Element) (px py : ℚ) :
    (penMove el px py).points = el.points ∨
    (penMove el px py).points = el.points ++ [(px, py)] := by
  cases hsc : el.points.getLast? with
  | none =>
    left
    rw [penMove_of_empty el px py hsc]
  | some lp =>
    by_cases hd : (px - lp.1) * (px - lp.1) + (py - lp.2) * (py - lp.2) < 4
    · left
      rw [penMove_of_close el px py lp hsc hd]
    · right
      exact (penMove_far_points el px py lp hsc hd).1

/-- One pen move grows the point list by at most one. -/
theorem penMove_points_le (el : Element) (px py : ℚ) :
    (penMove el px py).points.length ≤ el.points.length + 1 := by
  rcases penMove_points_cases el px py with hc | hc
  · rw [hc]
    omega
  · rw [hc]
    simp

/-- The tail of a close run is a close run. -/
theorem closeRun_tail {l : List (ℚ × ℚ)} {p : ℚ × ℚ}
    (h : closeRun (p :: l) = true) : closeRun l = true := by
  cases l with
  | nil => rfl
  | cons q rest =>
    simp only [closeRun, Bool.and_eq_true] at h
    exact h.2

/-- The first pair of a close run is close. -/
theorem closeRun_head {p q : ℚ × ℚ} {rest : List (ℚ × ℚ)}
    (h : closeRun (p :: q :: rest) = true) :
    (q.1 - p.1) * (q.1 - p.1) + (q.2 - p.2) * (q.2 - p.2) < 4 := by
  simp only [closeRun, Bool.and_eq_true, decide_eq_true_eq] at h
  exact h.1

/-- When consecutive raw samples are less than 2 pixels apart, a retained
sample forces the next sample to be dropped, so at most every other move is
retained: the point list grows by at most one point per two moves. -/
theorem penCount : ∀ (moves : List (ℚ × ℚ)) (el : Element),
    closeRun moves = true →
    (moves.foldl (fun e p => penMove e p.1 p.2) el).points.length ≤
      el.points.length + (moves.length + 1) / 2
  | [], el, _ => by simp
  | [m], el, _ => by
    simp only [List.foldl_cons, List.foldl_nil, List.length_cons, List.length_nil]
    have h := penMove_points_le el m.1 m.2
    omega
  | m1 :: m2 :: rest, el, hclose => by
    simp only [List.foldl_cons]
    cases hsc : el.points.getLast? with
    | none =>
      rw [penMove_of_empty el m1.1 m1.2 hsc]
      have h2 := penCount (m2 :: rest) el (closeRun_tail hclose)
      simp only [List.foldl_cons, List.length_cons] at h2 ⊢
      omega
    | some lp =>
      by_cases hd : (m1.1 - lp.1) * (m1.1 - lp.1) + (m1.2 - lp.2) * (m1.2 - lp.2) < 4
      · rw [penMove_of_close el m1.1 m1.2 lp hsc hd]
        have h2 := penCount (m2 :: rest) el (closeRun_tail hclose)
        simp only [List.foldl_cons, List.length_cons] at h2 ⊢
        omega
      · obtain ⟨hpts, hlast⟩ := penMove_far_points el m1.1 m1.2 lp hsc hd
        have hskip : penMove (penMove el m1.1 m1.2) m2.1 m2.2 = penMove el m1.1 m1.2 :=
          penMove_of_close _ m2.1 m2.2 (m1.1, m1.2) hlast (closeRun_head hclose)
        rw [hskip]
        have h2 := penCount rest (penMove el m1.1 m1.2)
          (closeRun_tail (closeRun_tail hclose))
        have hlen1 : (penMove el m1.1 m1.2).points.length = el.points.length + 1 := by
          rw [hpts]
          simp
        simp only [List.length_cons] at h2 ⊢
        omega

/-- The bounding-box invariant maintained by the pen tool: x and y are the
minima of the retained coordinates, and width and height are the exact
extents except that a zero extent is replaced by 1 (the JS fallback). -/
def bboxInv (el : Element) : Prop :=
  el.points ≠ [] ∧
  el.x = qMin (el.points.map Prod.fst) ∧
  el.y = qMin (el.points.map Prod.snd) ∧
  el.width = jsOrOne (qMax (el.points.map Prod.fst) - qMin (el.points.map Prod.fst)) ∧
  el.height = jsOrOne (qMax (el.points.map Prod.snd) - qMin (el.points.map Prod.snd))

/-- The freshly created single-point pen element satisfies the bounding-box
invariant. -/
theorem bboxInv_startPen (x y : ℚ) : bboxInv (startPen x y) := by
  refine ⟨by simp [startPen], ?_, ?_, ?_, ?_⟩ <;>
    simp [startPen, qMin, qMax, jsOrOne]

/-- The bounding-box invariant is preserved by every pen move. -/
theorem bboxInv_penMove (el : Element) (h : bboxInv el) (px py : ℚ) :
    bboxInv (penMove el px py) := by
  obtain ⟨hne, hx, hy, hw, hh⟩ := h
  cases hsc : el.points.getLast? with
  | none =>
    rw [penMove_of_empty el px py hsc]
    exact ⟨hne, hx, hy, hw, hh⟩
  | some lp =>
    by_cases hd : (px - lp.1) * (px - lp.1) + (py - lp.2) * (py - lp.2) < 4
    · rw [penMove_of_close el px py lp hsc hd]
      exact ⟨hne, hx, hy, hw, hh⟩
    · rw [penMove_of_far el px py lp hsc hd]
      exact ⟨by simp, rfl, rfl, rfl, rfl⟩

/-- The bounding-box invariant is preserved by any sequence of pen moves. -/
theorem bboxInv_fold (moves : List (ℚ × ℚ)) : ∀ (el : Element), bboxInv el →
    bboxInv (moves.foldl (fun e p => penMove e p.1 p.2) el) := by
  induction moves with
  | nil =>
    intro el h
    exact h
  | cons m rest ih =>
    intro el h
    simp only [List.foldl_cons]
    exact ih _ (bboxInv_penMove el h m.1 m.2)

/-- Claim C9 (amended): a freehand stroke built from 50 raw samples with
consecutive samples less than 2 pixels apart commits an element with fewer
than 50 retained points, whose x and y are the minima of the retained
coordinates and whose width and height are the exact extents of the
retained coordinates except that a zero extent is replaced by 1. -/
theorem pen_stroke_committed (x0 y0 : ℚ) (moves : List (ℚ × ℚ))
    (hN : moves.length = 49)
    (hclose : closeRun ((x0, y0) :: moves) = true) :
    (penStroke x0 y0 moves).points.length < 50 ∧
    bboxInv (penStroke x0 y0 moves) := by
  constructor
  · have h := penCount moves (startPen x0 y0) (closeRun_tail hclose)
    have hs : (startPen x0 y0).points.length = 1 := by simp [startPen]
    rw [hs, hN] at h
    unfold penStroke
    omega
  · exact bboxInv_fold moves (startPen x0 y0) (bboxInv_startPen x0 y0)

/-- A purely vertical run of raw samples, one pixel apart, starting at the
given ordinate. -/
def vertMoves : Nat → ℚ → List (ℚ × ℚ)
  | 0, _ => []
  | n + 1, a => ((0 : ℚ), a) :: vertMoves n (a + 1)

/-- The vertical run has the stated number of samples. -/
theorem vertMoves_length : ∀ (n : Nat) (a : ℚ), (vertMoves n a).length = n
  | 0, _ => rfl
  | n + 1, a => by
    simp only [vertMoves, List.length_cons, vertMoves_length n (a + 1)]

/-- Every sample of the vertical run has first coordinate zero. -/
theorem vertMoves_fst_zero : ∀ (n : Nat) (a : ℚ), ∀ p ∈ vertMoves n a, p.1 = 0
  | 0, _ => by simp [vertMoves]
  | n + 1, a => by
    intro p hp
    rcases List.mem_cons.mp hp with rfl | hp2
    · rfl
    · exact vertMoves_fst_zero n (a + 1) p hp2

/-- Consecutive samples of the vertical run are one pixel apart, hence
closer than two pixels. -/
theorem closeRun_vert : ∀ (n : Nat) (a : ℚ), closeRun ((0, a) :: vertMoves n (a + 1)) = true
  | 0, _ => rfl
  | n + 1, a => by
    show closeRun ((0, a) :: (0, a + 1) :: vertMoves n (a + 1 + 1)) = true
    simp only [closeRun, Bool.and_eq_true, decide_eq_true_eq]
    constructor
    · show ((0 : ℚ) - 0) * ((0 : ℚ) - 0) + ((a + 1) - a) * ((a + 1) - a) < 4
      have h1 : (a + 1) - a = (1 : ℚ) := by ring
      rw [h1]
      norm_num
    · exact closeRun_vert n (a + 1)

/-- The minimum of a list of zeros is zero. -/
theorem foldl_min_zero : ∀ (t : List ℚ), (∀ q ∈ t, q = 0) → t.foldl min 0 = 0
  | [], _ => rfl
  | b :: t, h => by
    have hb : b = 0 := h b (List.mem_cons_self b t)
    subst hb
    show t.foldl min (min 0 0) = 0
    rw [min_self]
    exact foldl_min_zero t (fun q hq => h q (List.mem_cons_of_mem _ hq))

/-- The maximum of a list of zeros is zero. -/
theorem foldl_max_zero : ∀ (t : List ℚ), (∀ q ∈ t, q = 0) → t.foldl max 0 = 0
  | [], _ => rfl
  | b :: t, h => by
    have hb : b = 0 := h b (List.mem_cons_self b t)
    subst hb
    show t.foldl max (max 0 0) = 0
    rw [max_self]
    exact foldl_max_zero t (fun q hq => h q (List.mem_cons_of_mem _ hq))

/-- `qMin` of a list of zeros is zero. -/
theorem qMin_all_zero (l : List ℚ) (h : ∀ q ∈ l, q = 0) : qMin l = 0 := by
  cases l with
  | nil => rfl
  | cons a t =>
    have ha := h a (List.mem_cons_self a t)
    subst ha
    exact foldl_min_zero t (fun q hq => h q (List.mem_cons_of_mem _ hq))

/-- `qMax` of a list of zeros is zero. -/
theorem qMax_all_zero (l : List ℚ) (h : ∀ q ∈ l, q = 0) : qMax l = 0 := by
  cases l with
  | nil => rfl
  | cons a t =>
    have ha := h a (List.mem_cons_self a t)
    subst ha
    exact foldl_max_zero t (fun q hq => h q (List.mem_cons_of_mem _ hq))

/-- A pen fold over samples with zero first coordinate keeps every retained
point at zero first coordinate. -/
theorem penFold_fst_zero : ∀ (moves : List (ℚ × ℚ)) (el : Element),
    (∀ p ∈ el.points, p.1 = 0) → (∀ m ∈ moves, m.1 = 0) →
    ∀ p ∈ (moves.foldl (fun e q => penMove e q.1 q.2) el).points, p.1 = 0 := by
  intro moves
  induction moves with
  | nil =>
    intro el h _ p hp
    exact h p hp
  | cons m rest ih =>
    intro el h hm
    simp only [List.foldl_cons]
    apply ih
    · intro p hp
      rcases penMove_points_cases el m.1 m.2 with hc | hc
      · rw [hc] at hp
        exact h p hp
      · rw [hc] at hp
        rcases List.mem_append.mp hp with hp1 | hp2
        · exact h p hp1
        · have hpm : p = (m.1, m.2) := by simpa using hp2
          rw [hpm]
          exact hm m (List.mem_cons_self m rest)
    · intro q hq
      exact hm q (List.mem_cons_of_mem m hq)

/-- Counterexample to claim C9 as stated: on a purely vertical stroke of 50
raw samples one pixel apart, the retained points have zero horizontal
extent, but the committed element gets width 1 from the JS fallback, so the
bounding box is not the exact extent of the retained points. -/
theorem pen_stroke_bbox_not_exact :
    (vertMoves 49 1).length = 49 ∧
    closeRun ((0, 0) :: vertMoves 49 1) = true ∧
    (penStroke 0 0 (vertMoves 49 1)).width = 1 ∧
    qMax ((penStroke 0 0 (vertMoves 49 1)).points.map Prod.fst) -
      qMin ((penStroke 0 0 (vertMoves 49 1)).points.map Prod.fst) = 0 ∧
    (1 : ℚ) ≠ 0 := by
  have hclose : closeRun ((0, 0) :: vertMoves 49 1) = true := by
    have h := closeRun_vert 49 0
    norm_num at h
    exact h
  have hz : ∀ p ∈ (penStroke 0 0 (vertMoves 49 1)).points, p.1 = 0 := by
    rw [penStroke]
    apply penFold_fst_zero (vertMoves 49 1) (startPen 0 0)
    · intro p hp
      have hp0 : p = ((0 : ℚ), (0 : ℚ)) := by simpa [startPen] using hp
      rw [hp0]
    · exact vertMoves_fst_zero 49 1
  have hinv : bboxInv (penStroke 0 0 (vertMoves 49 1)) :=
    bboxInv_fold (vertMoves 49 1) (startPen 0 0) (bboxInv_startPen 0 0)
  have hmin : qMin ((penStroke 0 0 (vertMoves 49 1)).points.map Prod.fst) = 0 := by
    apply qMin_all_zero
    intro q hq
    obtain ⟨p, hp, rfl⟩ := List.mem_map.mp hq
    exact hz p hp
  have hmax : qMax ((penStroke 0 0 (vertMoves 49 1)).points.map Prod.fst) = 0 := by
    apply qMax_all_zero
    intro q hq
    obtain ⟨p, hp, rfl⟩ := List.mem_map.mp hq
    exact hz p hp
  refine ⟨vertMoves_length 49 1, hclose, ?_, ?_, one_ne_zero⟩
  · rw [hinv.2.2.2.1, hmax, hmin]
    norm_num [jsOrOne]
  · rw [hmax, hmin]
    norm_num

/-- Concrete instance of `pen_stroke_committed`. -/
theorem pen_stroke_committed_witness :
    (penStroke 0 0 (vertMoves 49 1)).points.length < 50 ∧
    bboxInv (penStroke 0 0 (vertMoves 49 1)) := by
  apply pen_stroke_committed
  · exact vertMoves_length 49 1
  · have h := closeRun_vert 49 0
    norm_num at h
    exact h

end Whiteboard
